import Mathlib

/-!
Shallow embedding of the memory subsystem of the `memory-ai-friend-chat`
LLM server (src/chatbot-llm/src/services/memory_service.py, the message
assembly of src/chatbot-llm/src/api/prompt_routes.py, and the driver loop of
`MemoryManager.cleanup_all_memories`), together with proofs of the
specification claims about it.

Modelling conventions:
* `datetime` instants are abstract integers (`Int`); `timedelta` durations are
  integers in the same unit; `isoformat`/`fromisoformat` round-trip, so the
  serialized form of a timestamp is modelled by the instant itself.
* A Python `dict` is an insertion-ordered association list; assignment to an
  existing key updates it in place, assignment to a fresh key appends.
* `collections.deque(maxlen=C)` append keeps the last `C` elements.
* Python float values produced by `len(...) / len(...)` are modelled by exact
  rationals: `mkRat a b` is the exact value of the division `a / b` (the float
  inaccuracies are far below the gaps between the small fractions that occur
  here, so the exact model decides every comparison the way the float does).
-/

namespace ChatMem

/-- Chat message (chat_models.py `Message`): a role, a content string, and an
optional timestamp. -/
structure Message where
  role : String
  content : String
  timestamp : Option Int
deriving DecidableEq, Repr

/-- Memory item (memory_service.py `MemoryItem`): content plus importance,
type tag, free-form metadata, and access bookkeeping.  Metadata values are
`Option String` so that Python `None` is representable. -/
structure MemoryItem where
  content : String
  importance : Int
  memory_type : String
  metadata : List (String × Option String)
  created_at : Int
  last_accessed : Int
  access_count : Nat
deriving DecidableEq, Repr

/-- One user's memory store (memory_service.py `ConversationMemory`). -/
structure ConversationMemory where
  user_id : String
  short_term_memory : List MemoryItem
  long_term_memory : List (String × MemoryItem)
  user_preferences : List (String × String)
  conversation_contexts : List (String × List Message)
deriving DecidableEq, Repr

/-- `ConversationMemory.__init__`: fresh store, every collection empty. -/
def ConversationMemory.init (user_id : String) : ConversationMemory :=
  ⟨user_id, [], [], [], []⟩

/-- The last `C` elements of a list (Python slice `l[-C:]` for `C ≥ 1`, and
the contents of a `deque(maxlen=C)` after pushing all of `l`). -/
def takeRight (C : Nat) (l : List α) : List α :=
  l.drop (l.length - C)

/-- Appending to a `deque(maxlen=C)`: push at the tail, silently dropping the
oldest element once the capacity is exceeded. -/
def dequeAppend (C : Nat) (q : List α) (x : α) : List α :=
  takeRight C (q ++ [x])

/-- Python `dict` assignment `d[k] = v` on an insertion-ordered association
list: an existing key is updated in place, a fresh key is appended. -/
def dictInsert (k : String) (v : α) (l : List (String × α)) : List (String × α) :=
  if l.any (fun p => p.1 == k) then
    l.map (fun p => if p.1 == k then (k, v) else p)
  else
    l ++ [(k, v)]

/-- Helper for `pyWords`: scan the character list, accumulating the current
word (in reverse) and emitting it at each whitespace run, exactly like
Python's argument-free `str.split` (runs of whitespace separate words, no
empty fragments are produced). -/
def wordsAux : List Char → List Char → List String
  | [], acc => if acc.isEmpty then [] else [String.mk acc.reverse]
  | c :: cs, acc =>
      if c.isWhitespace then
        if acc.isEmpty then wordsAux cs [] else String.mk acc.reverse :: wordsAux cs []
      else wordsAux cs (c :: acc)

/-- Python `s.lower().split()`: lower-case the string and split it into
whitespace-separated words. -/
def pyWords (s : String) : List String :=
  wordsAux (s.toList.map Char.toLower) []

/-- The word set of a string as used by `_calculate_relevance`:
`set(s.lower().split())`. -/
def wordSet (s : String) : Finset String :=
  (pyWords s).toFinset

/-- `ConversationMemory._calculate_relevance`: Jaccard similarity of the two
word sets (`|intersection| / |union|`), and `0` when either word set is empty.
`mkRat a b` is the exact value of the Python division `len(a) / len(b)`. -/
def calculate_relevance (context memory_content : String) : ℚ :=
  let context_words := wordSet context
  let memory_words := wordSet memory_content
  if context_words = ∅ ∨ memory_words = ∅ then 0
  else
    let intersection := context_words ∩ memory_words
    let union := context_words ∪ memory_words
    if union = ∅ then 0 else mkRat intersection.card union.card

/-- The retrieval relevance threshold of `retrieve_relevant_memories`: the
Python literal `0.3`, i.e. the exact rational 3/10. -/
def relevanceThreshold : ℚ := mkRat 3 10

/-- The `MemoryItem` built by `add_short_term_memory`: content from the
message, type fixed to conversation, metadata carrying role and timestamp,
fresh access bookkeeping (`created_at = last_accessed = now`,
`access_count = 0`). -/
def mkShortTermItem (now : Int) (message : Message) (importance : Int) : MemoryItem :=
  { content := message.content
    importance := importance
    memory_type := "conversation"
    metadata := [("role", some message.role), ("timestamp", message.timestamp.map toString)]
    created_at := now
    last_accessed := now
    access_count := 0 }

/-- `ConversationMemory.add_short_term_memory`: wrap the message as a
`MemoryItem` and append it to the capacity-`C` short-term deque. -/
def add_short_term_memory (C : Nat) (now : Int) (m : ConversationMemory)
    (message : Message) (importance : Int) : ConversationMemory :=
  { m with short_term_memory :=
      dequeAppend C m.short_term_memory (mkShortTermItem now message importance) }

/-- The `MemoryItem` stored by `add_long_term_memory`: the given fields with
fresh access bookkeeping. -/
def mkLongTermItem (now : Int) (content : String) (importance : Int)
    (memory_type : String) (metadata : List (String × Option String)) : MemoryItem :=
  { content := content
    importance := importance
    memory_type := memory_type
    metadata := metadata
    created_at := now
    last_accessed := now
    access_count := 0 }

/-- `ConversationMemory.add_long_term_memory`: store a fresh item under
`memory_id` and return the id.  The id itself is produced in the source by an
md5 hash of content, type, user and wall-clock time; that generator is not
arithmetic the claims depend on, so the generated id is passed in as a
parameter here. -/
def add_long_term_memory (memory_id : String) (now : Int) (m : ConversationMemory)
    (content : String) (importance : Int) (memory_type : String)
    (metadata : List (String × Option String)) : ConversationMemory × String :=
  let memory_item := mkLongTermItem now content importance memory_type metadata
  ({ m with long_term_memory := dictInsert memory_id memory_item m.long_term_memory },
   memory_id)

/-- The per-item test of `retrieve_relevant_memories`: the item's type is in
the requested set and its relevance to the context strictly exceeds 0.3. -/
def memoryHit (current_context : String) (memory_types : List String)
    (it : MemoryItem) : Bool :=
  memory_types.contains it.memory_type &&
    decide (relevanceThreshold < calculate_relevance current_context it.content)

/-- The in-place access-bookkeeping update performed on an item kept by
`retrieve_relevant_memories`: bump `access_count`, refresh `last_accessed`. -/
def touchItem (now : Int) (it : MemoryItem) : MemoryItem :=
  { it with access_count := it.access_count + 1, last_accessed := now }

/-- One scan pass of `retrieve_relevant_memories` over a store: the kept
(already updated) items paired with their relevance scores, in scan order. -/
def collectHits (current_context : String) (memory_types : List String) (now : Int)
    (items : List MemoryItem) : List (MemoryItem × ℚ) :=
  items.filterMap (fun it =>
    if memoryHit current_context memory_types it then
      some (touchItem now it, calculate_relevance current_context it.content)
    else none)

/-- The store after one scan pass: hit items updated in place, misses kept
unchanged. -/
def touchStore (current_context : String) (memory_types : List String) (now : Int)
    (items : List MemoryItem) : List MemoryItem :=
  items.map (fun it =>
    if memoryHit current_context memory_types it then touchItem now it else it)

/-- The comparison realised by Python's stable
`sort(key=lambda x: x[1], reverse=True)`: scores weakly descending, equal
scores keeping their original relative order (`List.insertionSort` with this
relation is exactly that stable descending sort). -/
def scoreGe (a b : MemoryItem × ℚ) : Prop := b.2 ≤ a.2

instance : DecidableRel scoreGe := fun a b => inferInstanceAs (Decidable (b.2 ≤ a.2))

instance : IsTotal (MemoryItem × ℚ) scoreGe := ⟨fun a b => le_total b.2 a.2⟩

instance : IsTrans (MemoryItem × ℚ) scoreGe := ⟨fun _ _ _ h1 h2 => le_trans h2 h1⟩

/-- The default `memory_types` of `retrieve_relevant_memories` when the caller
passes `None`. -/
def defaultMemoryTypes : List String := ["conversation", "user_info", "preference"]

/-- `ConversationMemory.retrieve_relevant_memories`: scan the short-term store
then the long-term store, keep items of a requested type whose relevance to
the context exceeds 0.3 (updating their access bookkeeping in place), sort
the kept items by relevance score descending (stable), truncate to `limit`,
and return the items together with the updated store. -/
def retrieve_relevant_memories (now : Int) (m : ConversationMemory)
    (current_context : String) (limit : Nat) (memory_types : List String) :
    List MemoryItem × ConversationMemory :=
  let shortHits := collectHits current_context memory_types now m.short_term_memory
  let longHits :=
    collectHits current_context memory_types now (m.long_term_memory.map Prod.snd)
  let relevant_memories := List.insertionSort scoreGe (shortHits ++ longHits)
  (((relevant_memories.take limit).map Prod.fst),
   { m with
     short_term_memory := touchStore current_context memory_types now m.short_term_memory
     long_term_memory := m.long_term_memory.map (fun p =>
       (p.1, if memoryHit current_context memory_types p.2 then touchItem now p.2 else p.2)) })

/-- `ConversationMemory.get_conversation_context`: stored thread or `[]`. -/
def get_conversation_context (m : ConversationMemory) (conversation_id : String) :
    List Message :=
  match m.conversation_contexts.find? (fun p => p.1 == conversation_id) with
  | some p => p.2
  | none => []

/-- `ConversationMemory.update_conversation_context`: truncate to the last
`max_messages` turns, then store under the conversation id. -/
def update_conversation_context (max_messages : Nat) (m : ConversationMemory)
    (conversation_id : String) (messages : List Message) : ConversationMemory :=
  let messages' := if max_messages < messages.length then takeRight max_messages messages
                   else messages
  { m with conversation_contexts := dictInsert conversation_id messages' m.conversation_contexts }

/-- `ConversationMemory.add_user_preference`. -/
def add_user_preference (m : ConversationMemory) (key : String) (value : String) :
    ConversationMemory :=
  { m with user_preferences := dictInsert key value m.user_preferences }

/-- `ConversationMemory.cleanup_old_memories`: drop every long-term item whose
`created_at` lies before `now - retention` and whose importance is below 7;
nothing else is modified. -/
def cleanup_old_memories (retention : Int) (now : Int) (m : ConversationMemory) :
    ConversationMemory :=
  let cutoff_date := now - retention
  { m with long_term_memory := m.long_term_memory.filter (fun p =>
      !(decide (p.2.created_at < cutoff_date) && decide (p.2.importance < 7))) }

/-- The comparison realised by the stable
`sorted(..., key=lambda x: x[1].importance, reverse=True)` in the blank-query
branch of `get_relevant_memories`. -/
def importanceGe (a b : String × MemoryItem) : Prop :=
  b.2.importance ≤ a.2.importance

instance : DecidableRel importanceGe :=
  fun a b => inferInstanceAs (Decidable (b.2.importance ≤ a.2.importance))

/-- The comparison realised by `scored_memories.sort(reverse=True)` on
`(score, content)` tuples: descending lexicographic tuple order. -/
def tupleGe (a b : ℚ × String) : Prop :=
  b.1 < a.1 ∨ (b.1 = a.1 ∧ b.2 ≤ a.2)

instance : DecidableRel tupleGe :=
  fun a b => inferInstanceAs (Decidable (b.1 < a.1 ∨ (b.1 = a.1 ∧ b.2 ≤ a.2)))

/-- Substring scan used by `strContains`: does `needle` occur (contiguously)
anywhere in the character list? -/
def charsContain (needle : List Char) : List Char → Bool
  | [] => needle.isEmpty
  | c :: cs => needle.isPrefixOf (c :: cs) || charsContain needle cs

/-- Python's `needle in hay` on strings: substring containment. -/
def strContains (hay needle : String) : Bool :=
  charsContain needle.toList hay.toList

/-- `ConversationMemory.get_relevant_memories` (the query-oriented retrieval
path used by prompt building).  Blank query: top-`limit` long-term items by
importance.  Otherwise: long-term items with relevance above 0.1 ranked by
`0.7 * importance/10 + 0.3 * relevance`, truncated to `limit`, back-filled
from short-term items containing the query as a substring.  The method reads
but never writes the store, so the returned store is the input store. -/
def get_relevant_memories (m : ConversationMemory) (query : String) (limit : Nat) :
    List String × ConversationMemory :=
  if query = "" ∨ query.toList.all Char.isWhitespace then
    let sorted_memories := List.insertionSort importanceGe m.long_term_memory
    ((sorted_memories.take limit).map (fun p => p.2.content), m)
  else
    let query_lower := query.toLower
    let scored_memories := m.long_term_memory.filterMap (fun p =>
      let relevance_score := calculate_relevance query_lower p.2.content.toLower
      if mkRat 1 10 < relevance_score then
        some ((p.2.importance : ℚ) / 10 * (7 / 10) + relevance_score * (3 / 10),
              p.2.content)
      else none)
    let sorted := List.insertionSort tupleGe scored_memories
    let relevant := (sorted.take limit).map Prod.snd
    let backfill :=
      ((m.short_term_memory.filter (fun it => strContains it.content.toLower query_lower)).map
        (fun it => it.content)).take (limit - relevant.length)
    (relevant ++ backfill, m)

/-- Serialized form of a `MemoryItem` (`MemoryItem.to_dict`); the two
ISO-8601 timestamp strings are modelled by the instants they denote. -/
structure MemoryItemDict where
  content : String
  importance : Int
  memory_type : String
  metadata : List (String × Option String)
  created_at : Int
  last_accessed : Int
  access_count : Nat
deriving DecidableEq, Repr

/-- `MemoryItem.to_dict`. -/
def MemoryItem.to_dict (it : MemoryItem) : MemoryItemDict :=
  ⟨it.content, it.importance, it.memory_type, it.metadata,
   it.created_at, it.last_accessed, it.access_count⟩

/-- `MemoryItem.from_dict`: construct from content/importance/type/metadata
(the constructor stamps the current instant, immediately overwritten below,
so the result does not depend on the clock), then restore the bookkeeping
fields. -/
def MemoryItem.from_dict (d : MemoryItemDict) : MemoryItem :=
  let item : MemoryItem :=
    { content := d.content, importance := d.importance, memory_type := d.memory_type
      metadata := d.metadata, created_at := 0, last_accessed := 0, access_count := 0 }
  { item with created_at := d.created_at, last_accessed := d.last_accessed,
              access_count := d.access_count }

/-- Serialized form of a `ConversationMemory` (`ConversationMemory.to_dict`).
Messages serialize to dictionaries field-by-field (`msg.dict()`), inverted by
the `Message(**msg_data)` constructor, so they are modelled by themselves. -/
structure ConversationMemoryDict where
  user_id : String
  short_term_memory : List MemoryItemDict
  long_term_memory : List (String × MemoryItemDict)
  user_preferences : List (String × String)
  conversation_contexts : List (String × List Message)
deriving DecidableEq, Repr

/-- `ConversationMemory.to_dict`. -/
def ConversationMemory.to_dict (m : ConversationMemory) : ConversationMemoryDict :=
  { user_id := m.user_id
    short_term_memory := m.short_term_memory.map MemoryItem.to_dict
    long_term_memory := m.long_term_memory.map (fun p => (p.1, p.2.to_dict))
    user_preferences := m.user_preferences
    conversation_contexts := m.conversation_contexts }

/-- `ConversationMemory.from_dict`: start from a fresh store for the recorded
user id, push every serialized short-term item through the capacity-`C` deque
(re-applying the configured capacity), restore the long-term map and the
conversation contexts entry by entry, and restore the preferences. -/
def ConversationMemory.from_dict (C : Nat) (d : ConversationMemoryDict) :
    ConversationMemory :=
  let m0 := ConversationMemory.init d.user_id
  { m0 with
    short_term_memory :=
      d.short_term_memory.foldl (fun q md => dequeAppend C q (MemoryItem.from_dict md))
        m0.short_term_memory
    long_term_memory :=
      d.long_term_memory.foldl (fun acc p => dictInsert p.1 (MemoryItem.from_dict p.2) acc)
        m0.long_term_memory
    user_preferences := d.user_preferences
    conversation_contexts :=
      d.conversation_contexts.foldl (fun acc p => dictInsert p.1 p.2 acc)
        m0.conversation_contexts }

/-- An output message of the prompt-assembly endpoint: a plain role/content
pair (the dictionaries appended to `messages` in `generate_prompt`). -/
structure OutMessage where
  role : String
  content : String
deriving DecidableEq, Repr

/-- The message-array assembly of `generate_prompt` (prompt_routes.py):
system prompt first; then, when a conversation context is present, its last
`maxContextMessages` turns with system-role turns filtered out; then the
current user message last. -/
def assemble_messages (system_prompt : String) (conversation_context : List Message)
    (maxContextMessages : Nat) (current_message : String) : List OutMessage :=
  let recent_messages :=
    if conversation_context.isEmpty then []
    else (takeRight maxContextMessages conversation_context).filter
      (fun msg => msg.role != "system")
  { role := "system", content := system_prompt } ::
    (recent_messages.map (fun msg => { role := msg.role, content := msg.content }) ++
      [{ role := "user", content := current_message }])

/-- `LLMService._convert_to_langchain_messages`: system prompt first, then the
request messages with system-role turns skipped (user turns become human
messages, assistant turns become AI messages, anything else is dropped). -/
def convert_to_langchain_messages (system_prompt : String) (messages : List Message) :
    List OutMessage :=
  { role := "system", content := system_prompt } ::
    (messages.filter (fun msg => msg.role == "user" || msg.role == "assistant")).map
      (fun msg => { role := msg.role, content := msg.content })

/-- The driver loop of `MemoryManager.cleanup_all_memories`: run the per-user
cleanup for every registered user in registry order.  The per-user body is
abstracted as a fallible action; the source wraps no try/except around the
loop body, so the translation stops at the first raised error and propagates
it.  Returns the users whose cleanup completed and the propagated error, if
any. -/
def cleanup_all_memories (step : String → Except String Unit) :
    List String → List String × Option String
  | [] => ([], none)
  | u :: rest =>
    match step u with
    | Except.error e => ([], some e)
    | Except.ok _ =>
      let r := cleanup_all_memories step rest
      (u :: r.1, r.2)

/-! ### List lemmas about the bounded deque -/

lemma length_takeRight (C : Nat) (l : List α) :
    (takeRight C l).length = min C l.length := by
  simp [takeRight]; omega

lemma takeRight_append (C : Nat) (l r : List α) :
    takeRight C (takeRight C l ++ r) = takeRight C (l ++ r) := by
  unfold takeRight
  rw [List.length_append, List.length_append, List.length_drop,
    List.drop_append_eq_append_drop, List.drop_append_eq_append_drop, List.drop_drop,
    List.length_drop]
  congr 2 <;> omega

lemma length_dequeAppend_le (C : Nat) (q : List α) (x : α) :
    (dequeAppend C q x).length ≤ C := by
  simp [dequeAppend, length_takeRight]

lemma foldl_dequeAppend (C : Nat) (f : β → α) (xs : List β) (q : List α)
    (h : q.length ≤ C) :
    xs.foldl (fun acc e => dequeAppend C acc (f e)) q = takeRight C (q ++ xs.map f) := by
  induction xs generalizing q with
  | nil => simp [takeRight, Nat.sub_eq_zero_of_le h]
  | cons x xs ih =>
    rw [List.foldl_cons, ih (dequeAppend C q (f x)) (length_dequeAppend_le C q (f x)),
      dequeAppend, takeRight_append, List.append_assoc, List.map_cons,
      List.singleton_append]

/-! ### Claim C1: FIFO behaviour of the short-term store -/

/-- A sequence of `add_short_term_memory` calls, each entry carrying the
message, the importance, and the clock instant of the call. -/
def add_short_term_many (C : Nat) (m : ConversationMemory)
    (entries : List (Message × Int × Int)) : ConversationMemory :=
  entries.foldl (fun acc e => add_short_term_memory C e.2.2 acc e.1 e.2.1) m

lemma add_short_term_many_fields (C : Nat) (m : ConversationMemory)
    (entries : List (Message × Int × Int)) :
    (add_short_term_many C m entries).short_term_memory
        = entries.foldl (fun q e => dequeAppend C q (mkShortTermItem e.2.2 e.1 e.2.1))
            m.short_term_memory
      ∧ (add_short_term_many C m entries).user_id = m.user_id
      ∧ (add_short_term_many C m entries).long_term_memory = m.long_term_memory
      ∧ (add_short_term_many C m entries).user_preferences = m.user_preferences
      ∧ (add_short_term_many C m entries).conversation_contexts
        = m.conversation_contexts := by
  induction entries generalizing m with
  | nil => exact ⟨rfl, rfl, rfl, rfl, rfl⟩
  | cons e es ih =>
    simpa [add_short_term_many, add_short_term_memory] using
      ih (add_short_term_memory C e.2.2 m e.1 e.2.1)

/-- Claim C1: after any sequence of `N` appends through
`add_short_term_memory` into a fresh store with configured capacity `C`, the
short-term store holds exactly `min N C` items, namely the most recently
appended items in insertion order — the suffix of length `C` of the appended
sequence, so the oldest item is evicted first and eviction is positional,
never importance-based. -/
theorem add_short_term_memory_fifo (C : Nat) (user_id : String)
    (entries : List (Message × Int × Int)) :
    (add_short_term_many C (ConversationMemory.init user_id) entries).short_term_memory
        = takeRight C (entries.map (fun e => mkShortTermItem e.2.2 e.1 e.2.1))
      ∧ (add_short_term_many C
          (ConversationMemory.init user_id) entries).short_term_memory.length
        = min entries.length C := by
  have hfold := (add_short_term_many_fields C (ConversationMemory.init user_id) entries).1
  have hmap :
      (add_short_term_many C (ConversationMemory.init user_id) entries).short_term_memory
        = takeRight C (entries.map (fun e => mkShortTermItem e.2.2 e.1 e.2.1)) := by
    rw [hfold]
    show entries.foldl (fun q e => dequeAppend C q (mkShortTermItem e.2.2 e.1 e.2.1)) [] = _
    rw [foldl_dequeAppend C (fun e => mkShortTermItem e.2.2 e.1 e.2.1) entries []
      (Nat.zero_le C), List.nil_append]
  refine ⟨hmap, ?_⟩
  rw [hmap, length_takeRight, List.length_map, Nat.min_comm]

/-! ### Claim C3: the relevance score is Jaccard similarity -/

lemma calculate_relevance_eq_div (A B : String) :
    calculate_relevance A B
      = ((wordSet A ∩ wordSet B).card : ℚ) / ((wordSet A ∪ wordSet B).card : ℚ) := by
  simp only [calculate_relevance]
  by_cases h : wordSet A = ∅ ∨ wordSet B = ∅
  · rw [if_pos h]
    have hint : wordSet A ∩ wordSet B = ∅ := by
      rcases h with h | h <;> simp [h]
    rw [hint]
    simp
  · rw [if_neg h]
    push_neg at h
    have hu : ¬(wordSet A ∪ wordSet B = ∅) := by
      intro he
      rw [Finset.union_eq_empty] at he
      exact h.1 he.1
    rw [if_neg hu, Rat.mkRat_eq_divInt, Rat.divInt_eq_div]
    push_cast
    rfl

/-- Claim C3: the relevance score is Jaccard similarity over the lower-cased,
whitespace-tokenized word sets: it equals `|A ∩ B| / |A ∪ B|`, is symmetric,
lies in `[0, 1]`, is `1` on any string with a non-empty word set against
itself, and is `0` whenever either word set is empty — in particular on an
empty first argument. -/
theorem calculate_relevance_jaccard (A B : String) :
    calculate_relevance A B
        = ((wordSet A ∩ wordSet B).card : ℚ) / ((wordSet A ∪ wordSet B).card : ℚ)
      ∧ calculate_relevance A B = calculate_relevance B A
      ∧ 0 ≤ calculate_relevance A B
      ∧ calculate_relevance A B ≤ 1
      ∧ (wordSet A ≠ ∅ → calculate_relevance A A = 1)
      ∧ ((wordSet A = ∅ ∨ wordSet B = ∅) → calculate_relevance A B = 0)
      ∧ calculate_relevance "" B = 0 := by
  have hAB := calculate_relevance_eq_div A B
  refine ⟨hAB, ?_, ?_, ?_, ?_, ?_, ?_⟩
  · rw [hAB, calculate_relevance_eq_div B A, Finset.inter_comm, Finset.union_comm]
  · rw [hAB]
    positivity
  · rw [hAB]
    refine div_le_one_of_le₀ ?_ (by positivity)
    exact_mod_cast Finset.card_le_card (Finset.inter_subset_union)
  · intro h
    rw [calculate_relevance_eq_div A A, Finset.inter_self, Finset.union_self]
    have hcard : (wordSet A).card ≠ 0 := fun hc => h (Finset.card_eq_zero.mp hc)
    exact div_self (by exact_mod_cast hcard)
  · intro h
    simp only [calculate_relevance]
    rw [if_pos h]
  · have h0 : wordSet "" = ∅ := by decide
    simp only [calculate_relevance]
    rw [if_pos (Or.inl h0)]

/-- Closed instance of the hypotheses of `calculate_relevance_jaccard`:
a concrete non-blank string scores `1` against itself, and a concrete empty
word set forces score `0`. -/
theorem calculate_relevance_jaccard_witness :
    (wordSet "Hello world" ≠ ∅ ∧ calculate_relevance "Hello world" "Hello world" = 1)
      ∧ calculate_relevance "   " "anything" = 0 :=
  ⟨⟨by decide,
    (calculate_relevance_jaccard "Hello world" "Hello world").2.2.2.2.1 (by decide)⟩,
   (calculate_relevance_jaccard "   " "anything").2.2.2.2.2.1 (Or.inl (by decide))⟩

/-! ### Claim C4: age + importance pruning of the long-term store -/

lemma cleanup_keep_iff (retention now : Int) (p : String × MemoryItem) :
    ((!(decide (p.2.created_at < now - retention) && decide (p.2.importance < 7))) = true)
      ↔ ¬(p.2.created_at < now - retention ∧ p.2.importance < 7) := by
  simp
  omega

/-- Claim C4: `cleanup_old_memories` removes exactly the long-term entries
whose `created_at` is before `now - retention` and whose importance is below
7.  Entries failing either condition survive — in particular an importance-10
entry survives regardless of age — while an importance-1 entry outside the
window is always removed; the surviving entries all come from the original
store, and the short-term queue, the user preferences and the conversation
contexts are untouched. -/
theorem cleanup_old_memories_spec (retention now : Int) (m : ConversationMemory) :
    (∀ p ∈ m.long_term_memory,
        ¬(p.2.created_at < now - retention ∧ p.2.importance < 7) →
          p ∈ (cleanup_old_memories retention now m).long_term_memory)
      ∧ (∀ p ∈ m.long_term_memory,
          p.2.created_at < now - retention → p.2.importance < 7 →
            p ∉ (cleanup_old_memories retention now m).long_term_memory)
      ∧ (∀ p ∈ (cleanup_old_memories retention now m).long_term_memory,
          p ∈ m.long_term_memory)
      ∧ (∀ p ∈ m.long_term_memory, p.2.importance = 10 →
          p ∈ (cleanup_old_memories retention now m).long_term_memory)
      ∧ (∀ p ∈ m.long_term_memory, p.2.importance = 1 →
          p.2.created_at < now - retention →
            p ∉ (cleanup_old_memories retention now m).long_term_memory)
      ∧ (cleanup_old_memories retention now m).short_term_memory = m.short_term_memory
      ∧ (cleanup_old_memories retention now m).user_preferences = m.user_preferences
      ∧ (cleanup_old_memories retention now m).conversation_contexts
          = m.conversation_contexts := by
  have hkeep : ∀ p ∈ m.long_term_memory,
      ¬(p.2.created_at < now - retention ∧ p.2.importance < 7) →
        p ∈ (cleanup_old_memories retention now m).long_term_memory := by
    intro p hp hcond
    simp only [cleanup_old_memories, List.mem_filter]
    exact ⟨hp, (cleanup_keep_iff retention now p).mpr hcond⟩
  have hdrop : ∀ p ∈ m.long_term_memory,
      p.2.created_at < now - retention → p.2.importance < 7 →
        p ∉ (cleanup_old_memories retention now m).long_term_memory := by
    intro p _ hage himp hmem
    simp only [cleanup_old_memories, List.mem_filter] at hmem
    exact (cleanup_keep_iff retention now p).mp hmem.2 ⟨hage, himp⟩
  refine ⟨hkeep, hdrop, ?_, ?_, ?_, rfl, rfl, rfl⟩
  · intro p hp
    simp only [cleanup_old_memories, List.mem_filter] at hp
    exact hp.1
  · intro p hp h10
    exact hkeep p hp (by omega)
  · intro p hp h1 hage
    exact hdrop p hp hage (by omega)

/-- Concrete items for the C4 witness: an important memory and a trivial one,
both created long before the retention cutoff. -/
def itemKept : MemoryItem :=
  ⟨"graduation day", 10, "user_info", [], -1000, -1000, 0⟩

def itemDropped : MemoryItem :=
  ⟨"small talk", 1, "conversation", [], -1000, -1000, 0⟩

def memC4 : ConversationMemory :=
  ⟨"u1", [], [("keep", itemKept), ("drop", itemDropped)], [], []⟩

/-- Closed instance of `cleanup_old_memories_spec`: with retention 30 at
instant 0, the importance-10 entry created at instant -1000 survives and the
importance-1 entry created at instant -1000 is removed. -/
theorem cleanup_old_memories_spec_witness :
    ("keep", itemKept) ∈ (cleanup_old_memories 30 0 memC4).long_term_memory
      ∧ ("drop", itemDropped) ∉ (cleanup_old_memories 30 0 memC4).long_term_memory :=
  ⟨(cleanup_old_memories_spec 30 0 memC4).2.2.2.1 ("keep", itemKept) (by decide) rfl,
   (cleanup_old_memories_spec 30 0 memC4).2.2.2.2.1 ("drop", itemDropped) (by decide) rfl
     (by decide)⟩

/-! ### Claim C2: the retrieval pipeline of retrieve_relevant_memories -/

lemma relevanceThreshold_eq : relevanceThreshold = (3 : ℚ) / 10 := by
  rw [relevanceThreshold, Rat.mkRat_eq_divInt, Rat.divInt_eq_div]
  norm_num

lemma touchItem_content (now : Int) (it : MemoryItem) :
    (touchItem now it).content = it.content := rfl

lemma mem_collectHits {current_context : String} {memory_types : List String} {now : Int}
    {items : List MemoryItem} {p : MemoryItem × ℚ} :
    p ∈ collectHits current_context memory_types now items ↔
      ∃ y ∈ items, memoryHit current_context memory_types y = true ∧
        p = (touchItem now y, calculate_relevance current_context y.content) := by
  simp only [collectHits, List.mem_filterMap]
  constructor
  · rintro ⟨y, hy, hf⟩
    by_cases h : memoryHit current_context memory_types y
    · rw [if_pos h] at hf
      exact ⟨y, hy, h, (Option.some_inj.mp hf).symm⟩
    · rw [if_neg h] at hf
      exact absurd hf (Option.some_ne_none _).symm
  · rintro ⟨y, hy, h, hp⟩
    exact ⟨y, hy, by rw [if_pos h, hp]⟩

lemma memoryHit_true_iff {current_context : String} {memory_types : List String}
    {it : MemoryItem} :
    memoryHit current_context memory_types it = true ↔
      it.memory_type ∈ memory_types ∧
        (3 : ℚ) / 10 < calculate_relevance current_context it.content := by
  rw [← relevanceThreshold_eq]
  simp [memoryHit]

lemma collectHits_score {current_context : String} {memory_types : List String} {now : Int}
    {items : List MemoryItem} {p : MemoryItem × ℚ}
    (hp : p ∈ collectHits current_context memory_types now items) :
    p.2 = calculate_relevance current_context p.1.content := by
  rcases mem_collectHits.mp hp with ⟨y, _, _, hpy⟩
  rw [hpy]
  rfl

/-- Claim C2: `retrieve_relevant_memories` returns exactly the stable
descending-by-score sort of the hit items (short-term scan first, then
long-term scan — ties keep that order), truncated to `limit`; every returned
item has a requested type and relevance to the context strictly above 0.3,
has just had its bookkeeping updated (`last_accessed = now`, `access_count`
one more than the stored item it came from), and the scores of the returned
items are weakly descending. -/
theorem retrieve_relevant_memories_spec (now : Int) (m : ConversationMemory)
    (current_context : String) (limit : Nat) (memory_types : List String) :
    (retrieve_relevant_memories now m current_context limit memory_types).1
        = ((List.insertionSort scoreGe
            (collectHits current_context memory_types now m.short_term_memory ++
              collectHits current_context memory_types now
                (m.long_term_memory.map Prod.snd))).take limit).map Prod.fst
      ∧ (retrieve_relevant_memories now m current_context limit memory_types).1.length
          ≤ limit
      ∧ (∀ x ∈ (retrieve_relevant_memories now m current_context limit memory_types).1,
          x.memory_type ∈ memory_types
            ∧ (3 : ℚ) / 10 < calculate_relevance current_context x.content
            ∧ x.last_accessed = now
            ∧ ∃ y, (y ∈ m.short_term_memory ∨ y ∈ m.long_term_memory.map Prod.snd)
                ∧ x = touchItem now y ∧ x.access_count = y.access_count + 1)
      ∧ ((retrieve_relevant_memories now m current_context limit memory_types).1.map
            (fun x => calculate_relevance current_context x.content)).Pairwise
          (fun a b => b ≤ a) := by
  set hits := collectHits current_context memory_types now m.short_term_memory ++
    collectHits current_context memory_types now (m.long_term_memory.map Prod.snd) with hhits
  have hres : (retrieve_relevant_memories now m current_context limit memory_types).1
      = ((List.insertionSort scoreGe hits).take limit).map Prod.fst := rfl
  have hmem_hits : ∀ p ∈ (List.insertionSort scoreGe hits).take limit,
      ∃ y, (y ∈ m.short_term_memory ∨ y ∈ m.long_term_memory.map Prod.snd)
        ∧ memoryHit current_context memory_types y = true
        ∧ p = (touchItem now y, calculate_relevance current_context y.content) := by
    intro p hp
    have hp' : p ∈ hits :=
      (List.mem_insertionSort scoreGe).mp ((List.take_sublist _ _).subset hp)
    rw [hhits, List.mem_append] at hp'
    rcases hp' with hp' | hp'
    · rcases mem_collectHits.mp hp' with ⟨y, hy, hhit, hpy⟩
      exact ⟨y, Or.inl hy, hhit, hpy⟩
    · rcases mem_collectHits.mp hp' with ⟨y, hy, hhit, hpy⟩
      exact ⟨y, Or.inr hy, hhit, hpy⟩
  refine ⟨hres, ?_, ?_, ?_⟩
  · rw [hres, List.length_map]
    exact le_trans (List.length_take_le _ _) le_rfl
  · intro x hx
    rw [hres] at hx
    rcases List.mem_map.mp hx with ⟨p, hp, hpx⟩
    rcases hmem_hits p hp with ⟨y, hy, hhit, hpy⟩
    have hxy : x = touchItem now y := by rw [← hpx, hpy]
    have hmt := memoryHit_true_iff.mp hhit
    refine ⟨?_, ?_, ?_, y, hy, hxy, ?_⟩
    · rw [hxy]; exact hmt.1
    · rw [hxy, touchItem_content]; exact hmt.2
    · rw [hxy]; rfl
    · rw [hxy]; rfl
  · rw [hres, List.map_map]
    have hsorted : (List.insertionSort scoreGe hits).Pairwise scoreGe :=
      List.sorted_insertionSort scoreGe hits
    have htake : ((List.insertionSort scoreGe hits).take limit).Pairwise scoreGe :=
      hsorted.sublist (List.take_sublist _ _)
    have hscores : ∀ p ∈ (List.insertionSort scoreGe hits).take limit,
        p.2 = calculate_relevance current_context p.1.content := by
      intro p hp
      rcases hmem_hits p hp with ⟨y, _, _, hpy⟩
      rw [hpy, touchItem_content]
    rw [List.pairwise_map]
    refine htake.imp_of_mem ?_
    intro a b ha hb hab
    have h1 := hscores a ha
    have h2 := hscores b hb
    simp only [Function.comp]
    rw [← h1, ← h2]
    exact hab

/-- Concrete state for the C2 witness: one short-term item scoring 1 and one
long-term item scoring 2/3 against the query, both of a requested type. -/
def shortC2 : MemoryItem := ⟨"apple banana", 1, "conversation", [], 0, 0, 0⟩

def longC2 : MemoryItem := ⟨"banana apple cherry", 5, "conversation", [], 0, 0, 0⟩

def memC2 : ConversationMemory := ⟨"u2", [shortC2], [("k1", longC2)], [], []⟩

/-- Closed instance of `retrieve_relevant_memories_spec`: on the concrete
store, the updated short-term item is returned, its type is requested, its
relevance exceeds 0.3, and its `last_accessed` equals the retrieval
instant. -/
theorem retrieve_relevant_memories_spec_witness :
    touchItem 7 shortC2
        ∈ (retrieve_relevant_memories 7 memC2 "apple banana" 5 ["conversation"]).1
      ∧ (touchItem 7 shortC2).memory_type ∈ ["conversation"]
      ∧ (3 : ℚ) / 10 < calculate_relevance "apple banana" (touchItem 7 shortC2).content
      ∧ (touchItem 7 shortC2).last_accessed = 7 := by
  have hmem : touchItem 7 shortC2
      ∈ (retrieve_relevant_memories 7 memC2 "apple banana" 5 ["conversation"]).1 := by
    decide
  have h := (retrieve_relevant_memories_spec 7 memC2 "apple banana" 5
    ["conversation"]).2.2.1 (touchItem 7 shortC2) hmem
  exact ⟨hmem, h.1, h.2.1, h.2.2.1⟩

/-! ### Claim C10: access bookkeeping is driven by the filter, not the limit -/

/-- Claim C10: the store produced by `retrieve_relevant_memories` does not
depend on `limit` at all; position by position, an item passing the type
filter and the 0.3 threshold is replaced by its touched copy (access count
bumped by exactly one, `last_accessed` refreshed to the call instant) and
every other item is left unchanged — so items dropped by the truncation still
get their bookkeeping update; the remaining fields of the store are
untouched. -/
theorem retrieve_access_bookkeeping (now : Int) (m : ConversationMemory)
    (current_context : String) (limit limit' : Nat) (memory_types : List String) :
    (retrieve_relevant_memories now m current_context limit memory_types).2
        = (retrieve_relevant_memories now m current_context limit' memory_types).2
      ∧ (∀ i : Nat,
          (retrieve_relevant_memories now m current_context limit
              memory_types).2.short_term_memory[i]?
            = (m.short_term_memory[i]?).map (fun it =>
                if memoryHit current_context memory_types it then touchItem now it else it))
      ∧ (∀ i : Nat,
          (retrieve_relevant_memories now m current_context limit
              memory_types).2.long_term_memory[i]?
            = (m.long_term_memory[i]?).map (fun p =>
                (p.1,
                 if memoryHit current_context memory_types p.2 then touchItem now p.2
                 else p.2)))
      ∧ (∀ it : MemoryItem,
          (touchItem now it).access_count = it.access_count + 1
            ∧ (touchItem now it).last_accessed = now
            ∧ (touchItem now it).content = it.content
            ∧ (touchItem now it).importance = it.importance
            ∧ (touchItem now it).memory_type = it.memory_type
            ∧ (touchItem now it).created_at = it.created_at)
      ∧ (retrieve_relevant_memories now m current_context limit memory_types).2.user_id
          = m.user_id
      ∧ (retrieve_relevant_memories now m current_context limit
          memory_types).2.user_preferences = m.user_preferences
      ∧ (retrieve_relevant_memories now m current_context limit
          memory_types).2.conversation_contexts = m.conversation_contexts := by
  refine ⟨rfl, ?_, ?_, fun it => ⟨rfl, rfl, rfl, rfl, rfl, rfl⟩, rfl, rfl, rfl⟩
  · intro i
    show (touchStore current_context memory_types now m.short_term_memory)[i]? = _
    rw [touchStore, List.getElem?_map]
  · intro i
    show (m.long_term_memory.map _)[i]? = _
    rw [List.getElem?_map]

/-! ### Claim C9: the core fields of a stored item never change -/

/-- All `MemoryItem`s held by a store, short-term first. -/
def itemsOf (m : ConversationMemory) : List MemoryItem :=
  m.short_term_memory ++ m.long_term_memory.map Prod.snd

/-- Two items agreeing on every field except the access bookkeeping
(`last_accessed`, `access_count`). -/
def sameCore (a b : MemoryItem) : Prop :=
  a.content = b.content ∧ a.importance = b.importance
    ∧ a.memory_type = b.memory_type ∧ a.metadata = b.metadata
    ∧ a.created_at = b.created_at

lemma sameCore_refl (a : MemoryItem) : sameCore a a :=
  ⟨rfl, rfl, rfl, rfl, rfl⟩

lemma sameCore_touchItem (now : Int) (a : MemoryItem) :
    sameCore (touchItem now a) a :=
  ⟨rfl, rfl, rfl, rfl, rfl⟩

lemma mem_snd_dictInsert {k : String} {v : α} {l : List (String × α)} {x : α}
    (hx : x ∈ (dictInsert k v l).map Prod.snd) : x ∈ l.map Prod.snd ∨ x = v := by
  rw [dictInsert] at hx
  by_cases h : l.any (fun p => p.1 == k)
  · rw [if_pos h, List.map_map] at hx
    rcases List.mem_map.mp hx with ⟨q, hq, hqx⟩
    simp only [Function.comp] at hqx
    by_cases hk : q.1 == k
    · rw [if_pos hk] at hqx
      exact Or.inr hqx.symm
    · rw [if_neg hk] at hqx
      exact Or.inl (List.mem_map.mpr ⟨q, hq, hqx⟩)
  · rw [if_neg h, List.map_append, List.mem_append] at hx
    rcases hx with hx | hx
    · exact Or.inl hx
    · exact Or.inr (by simpa using hx)

lemma mem_dequeAppend {C : Nat} {q : List α} {y x : α}
    (hx : x ∈ dequeAppend C q y) : x ∈ q ∨ x = y := by
  have : x ∈ q ++ [y] := (List.drop_sublist _ _).subset hx
  rcases List.mem_append.mp this with h | h
  · exact Or.inl h
  · exact Or.inr (by simpa using h)

/-- Claim C9: across every public operation of the memory subsystem, the
fields `content`, `importance`, `memory_type`, `metadata` and `created_at` of
a stored item never change: an item surviving `retrieve_relevant_memories` is
the old item or its touched copy (same core, only bookkeeping updated); the
two ingestion operations only ever add a fresh item; pruning only removes
items; context and preference updates do not touch items at all; and the
`get_relevant_memories` query path returns the store completely unchanged (no
access bookkeeping update on that path). -/
theorem memory_item_core_immutable (C : Nat) (now retention : Int)
    (m : ConversationMemory) (message : Message) (importance imp2 : Int)
    (memory_id content memory_type : String)
    (metadata : List (String × Option String))
    (current_context : String) (limit max_messages qlimit : Nat)
    (memory_types : List String) (conversation_id : String)
    (messages : List Message) (key value query : String) :
    (∀ x ∈ itemsOf (retrieve_relevant_memories now m current_context limit
        memory_types).2,
      ∃ y ∈ itemsOf m, sameCore x y ∧ (x = y ∨ x = touchItem now y))
      ∧ (∀ x ∈ itemsOf (add_short_term_memory C now m message importance),
          x ∈ itemsOf m ∨ x = mkShortTermItem now message importance)
      ∧ (∀ x ∈ itemsOf (add_long_term_memory memory_id now m content imp2
            memory_type metadata).1,
          x ∈ itemsOf m ∨ x = mkLongTermItem now content imp2 memory_type metadata)
      ∧ (∀ x ∈ itemsOf (cleanup_old_memories retention now m), x ∈ itemsOf m)
      ∧ itemsOf (update_conversation_context max_messages m conversation_id messages)
          = itemsOf m
      ∧ itemsOf (add_user_preference m key value) = itemsOf m
      ∧ (get_relevant_memories m query qlimit).2 = m := by
  refine ⟨?_, ?_, ?_, ?_, rfl, rfl, ?_⟩
  · intro x hx
    rw [itemsOf, List.mem_append] at hx
    rcases hx with hx | hx
    · show ∃ y ∈ itemsOf m, _
      rcases List.mem_map.mp hx with ⟨y, hy, hyx⟩
      refine ⟨y, List.mem_append.mpr (Or.inl hy), ?_⟩
      by_cases h : memoryHit current_context memory_types y
      · rw [if_pos h] at hyx
        exact hyx ▸ ⟨sameCore_touchItem now y, Or.inr rfl⟩
      · rw [if_neg h] at hyx
        exact hyx ▸ ⟨sameCore_refl y, Or.inl rfl⟩
    · have hx' : x ∈ (m.long_term_memory.map (fun p =>
          (p.1, if memoryHit current_context memory_types p.2 then touchItem now p.2
                else p.2))).map Prod.snd := hx
      rw [List.map_map] at hx'
      rcases List.mem_map.mp hx' with ⟨p, hp, hpx⟩
      refine ⟨p.2, List.mem_append.mpr (Or.inr (List.mem_map.mpr ⟨p, hp, rfl⟩)), ?_⟩
      simp only [Function.comp] at hpx
      by_cases h : memoryHit current_context memory_types p.2
      · rw [if_pos h] at hpx
        exact hpx ▸ ⟨sameCore_touchItem now p.2, Or.inr rfl⟩
      · rw [if_neg h] at hpx
        exact hpx ▸ ⟨sameCore_refl p.2, Or.inl rfl⟩
  · intro x hx
    rw [itemsOf, List.mem_append] at hx
    rcases hx with hx | hx
    · rcases mem_dequeAppend hx with h | h
      · exact Or.inl (List.mem_append.mpr (Or.inl h))
      · exact Or.inr h
    · exact Or.inl (List.mem_append.mpr (Or.inr hx))
  · intro x hx
    rw [itemsOf, List.mem_append] at hx
    rcases hx with hx | hx
    · exact Or.inl (List.mem_append.mpr (Or.inl hx))
    · rcases mem_snd_dictInsert hx with h | h
      · exact Or.inl (List.mem_append.mpr (Or.inr h))
      · exact Or.inr h
  · intro x hx
    rw [itemsOf, List.mem_append] at hx
    rcases hx with hx | hx
    · exact List.mem_append.mpr (Or.inl hx)
    · rcases List.mem_map.mp hx with ⟨p, hp, hpx⟩
      have : p ∈ m.long_term_memory := (List.filter_sublist _).subset hp
      exact List.mem_append.mpr (Or.inr (List.mem_map.mpr ⟨p, this, hpx⟩))
  · rw [get_relevant_memories]
    split <;> rfl

/-- Concrete message for the C9 witness. -/
def msgC9 : Message := ⟨"user", "remember my name", none⟩

/-- Closed instance of `memory_item_core_immutable`: after one short-term
ingestion into a fresh store, the single stored item is (found to be, by the
theorem) either an old item or exactly the freshly built one. -/
theorem memory_item_core_immutable_witness :
    mkShortTermItem 3 msgC9 2
        ∈ itemsOf (add_short_term_memory 10 3 (ConversationMemory.init "u9") msgC9 2)
      ∧ (mkShortTermItem 3 msgC9 2 ∈ itemsOf (ConversationMemory.init "u9")
          ∨ mkShortTermItem 3 msgC9 2 = mkShortTermItem 3 msgC9 2) := by
  have hmem : mkShortTermItem 3 msgC9 2
      ∈ itemsOf (add_short_term_memory 10 3 (ConversationMemory.init "u9") msgC9 2) := by
    decide
  exact ⟨hmem,
    (memory_item_core_immutable 10 3 30 (ConversationMemory.init "u9") msgC9 2 5
      "id" "c" "t" [] "ctx" 5 50 3 ["conversation"] "conv" [] "k" "v" "q").2.1
      (mkShortTermItem 3 msgC9 2) hmem⟩

/-! ### Claim C5: serialization round-trip -/

lemma map_takeRight (C : Nat) (f : α → β) (l : List α) :
    (takeRight C l).map f = takeRight C (l.map f) := by
  simp [takeRight]

lemma memory_item_roundtrip (it : MemoryItem) :
    MemoryItem.from_dict (MemoryItem.to_dict it) = it := rfl

lemma foldl_dictInsert (f : β → α) (l : List (String × β)) (acc : List (String × α))
    (hnodup : (l.map Prod.fst).Nodup)
    (hdisj : ∀ p ∈ l, ∀ q ∈ acc, ¬ q.1 = p.1) :
    l.foldl (fun a p => dictInsert p.1 (f p.2) a) acc
      = acc ++ l.map (fun p => (p.1, f p.2)) := by
  induction l generalizing acc with
  | nil => simp
  | cons p ps ih =>
    have hmapnodup : p.1 ∉ ps.map Prod.fst ∧ (ps.map Prod.fst).Nodup :=
      List.nodup_cons.mp (by simpa using hnodup)
    have hnotin : ¬ acc.any (fun q => q.1 == p.1) = true := by
      simp only [List.any_eq_true, beq_iff_eq]
      rintro ⟨q, hq, hqp⟩
      exact hdisj p (List.mem_cons_self _ _) q hq hqp
    have hins : dictInsert p.1 (f p.2) acc = acc ++ [(p.1, f p.2)] := by
      rw [dictInsert, if_neg hnotin]
    rw [List.foldl_cons, hins, ih (acc ++ [(p.1, f p.2)]) hmapnodup.2 ?_,
      List.append_assoc, List.map_cons, List.singleton_append]
    intro r hr q hq
    rcases List.mem_append.mp hq with hq | hq
    · exact hdisj r (List.mem_cons_of_mem _ hr) q hq
    · have hqv : q = (p.1, f p.2) := by simpa using hq
      rw [hqv]
      intro hqr
      exact hmapnodup.1 (hqr ▸ List.mem_map.mpr ⟨r, hr, rfl⟩)

/-- Claim C5: serializing a store with `to_dict` and rebuilding it with
`from_dict` (capacity `C`) round-trips the whole state: the rebuilt store's
`to_dict` output equals the original's except that the short-term queue is
re-truncated to the last `C` entries (oldest dropped first).  The key-nodup
hypotheses record that the Python source maps are dictionaries, whose keys
are distinct by construction. -/
theorem conversation_memory_roundtrip (C : Nat) (m : ConversationMemory)
    (hlt : (m.long_term_memory.map Prod.fst).Nodup)
    (hcc : (m.conversation_contexts.map Prod.fst).Nodup) :
    (ConversationMemory.from_dict C m.to_dict).to_dict
      = { m.to_dict with
          short_term_memory := takeRight C m.to_dict.short_term_memory } := by
  have hshortfold :
      (m.short_term_memory.map MemoryItem.to_dict).foldl
          (fun q md => dequeAppend C q (MemoryItem.from_dict md)) []
        = takeRight C m.short_term_memory := by
    rw [foldl_dequeAppend C MemoryItem.from_dict _ [] (Nat.zero_le C), List.nil_append,
      List.map_map]
    congr 1
    exact List.map_id'' (fun it => rfl) _
  have hlongfold :
      (m.long_term_memory.map (fun p => (p.1, p.2.to_dict))).foldl
          (fun acc p => dictInsert p.1 (MemoryItem.from_dict p.2) acc) []
        = m.long_term_memory := by
    have h1 : ((m.long_term_memory.map (fun p => (p.1, p.2.to_dict))).map
        Prod.fst).Nodup := by
      rw [List.map_map]
      exact hlt
    rw [foldl_dictInsert MemoryItem.from_dict _ [] h1
      (fun p _ q hq => absurd hq (List.not_mem_nil q)), List.nil_append, List.map_map]
    exact List.map_id'' (fun p => rfl) _
  have hctxfold :
      m.conversation_contexts.foldl (fun acc p => dictInsert p.1 p.2 acc) []
        = m.conversation_contexts := by
    have h2 := foldl_dictInsert (fun x : List Message => x)
      m.conversation_contexts [] hcc
      (fun p _ q hq => absurd hq (List.not_mem_nil q))
    rw [h2, List.nil_append]
    exact List.map_id'' (fun p => rfl) _
  simp only [ConversationMemory.to_dict, ConversationMemory.from_dict,
    ConversationMemory.init]
  rw [hshortfold, hlongfold, hctxfold, map_takeRight]

/-- Concrete store for the C5 witness: non-empty short-term and long-term
memory, preferences, and two conversation threads. -/
def memC5 : ConversationMemory :=
  ⟨"u5",
   [⟨"turn one", 1, "conversation", [("role", some "user")], 1, 1, 0⟩,
    ⟨"turn two", 2, "conversation", [("role", some "assistant")], 2, 2, 1⟩],
   [("id1", ⟨"likes tea", 8, "preference", [], 1, 3, 2⟩),
    ("id2", ⟨"lives in Seoul", 9, "user_info", [], 2, 2, 0⟩)],
   [("tone", "casual")],
   [("conv1", [⟨"user", "hi", some 1⟩, ⟨"assistant", "hello", some 2⟩]),
    ("conv2", [⟨"user", "bye", some 3⟩])]⟩

/-- Closed instance of `conversation_memory_roundtrip` on `memC5` with
capacity 10 (no truncation: both short-term entries fit). -/
theorem conversation_memory_roundtrip_witness :
    (memC5.long_term_memory.map Prod.fst).Nodup
      ∧ (ConversationMemory.from_dict 10 memC5.to_dict).to_dict
        = { memC5.to_dict with
            short_term_memory := takeRight 10 memC5.to_dict.short_term_memory } :=
  ⟨by decide, conversation_memory_roundtrip 10 memC5 (by decide) (by decide)⟩

/-! ### Claim C7: prompt message assembly -/

lemma if_isEmpty_filter (k : Nat) (p : Message → Bool) (l : List Message) :
    (if l.isEmpty then ([] : List Message) else (takeRight k l).filter p)
      = (takeRight k l).filter p := by
  cases l with
  | nil => simp [takeRight]
  | cons a l => rfl

/-- Claim C7: the assembled message list is the system prompt first, then the
most recent `maxContextMessages` turns of the conversation context with
system-role turns excluded, then the current user turn last; its length is at
most `maxContextMessages + 2`, and with a context of 5 system-free turns and
`maxContextMessages = 3` the length is exactly `1 + 3 + 1 = 5`. -/
theorem prompt_assembly_spec (system_prompt current_message : String)
    (conversation_context : List Message) (maxContextMessages : Nat) :
    assemble_messages system_prompt conversation_context maxContextMessages
        current_message
        = { role := "system", content := system_prompt } ::
            (((takeRight maxContextMessages conversation_context).filter
                (fun msg => msg.role != "system")).map
              (fun msg => { role := msg.role, content := msg.content }) ++
              [{ role := "user", content := current_message }])
      ∧ (assemble_messages system_prompt conversation_context maxContextMessages
          current_message).length ≤ maxContextMessages + 2
      ∧ (assemble_messages system_prompt conversation_context maxContextMessages
          current_message).head? = some { role := "system", content := system_prompt }
      ∧ (assemble_messages system_prompt conversation_context maxContextMessages
          current_message).getLast? = some { role := "user", content := current_message }
      ∧ (conversation_context.length = 5 → maxContextMessages = 3 →
          (∀ msg ∈ conversation_context, msg.role ≠ "system") →
          (assemble_messages system_prompt conversation_context maxContextMessages
            current_message).length = 5) := by
  have hmain : assemble_messages system_prompt conversation_context maxContextMessages
      current_message
      = { role := "system", content := system_prompt } ::
          (((takeRight maxContextMessages conversation_context).filter
              (fun msg => msg.role != "system")).map
            (fun msg => { role := msg.role, content := msg.content }) ++
            [{ role := "user", content := current_message }]) := by
    simp only [assemble_messages, if_isEmpty_filter]
  have hfilterlen :
      ((takeRight maxContextMessages conversation_context).filter
        (fun msg => msg.role != "system")).length ≤ maxContextMessages := by
    calc ((takeRight maxContextMessages conversation_context).filter
            (fun msg => msg.role != "system")).length
        ≤ (takeRight maxContextMessages conversation_context).length :=
          List.length_filter_le _ _
      _ ≤ maxContextMessages := by rw [length_takeRight]; omega
  refine ⟨hmain, ?_, ?_, ?_, ?_⟩
  · rw [hmain]
    simp only [List.length_cons, List.length_append, List.length_map,
      List.length_singleton, List.length_nil]
    omega
  · rw [hmain]
    rfl
  · rw [hmain, ← List.cons_append, List.getLast?_concat]
  · intro h5 h3 hns
    have hsub : takeRight maxContextMessages conversation_context ⊆
        conversation_context := List.drop_subset _ _
    have hfil : (takeRight maxContextMessages conversation_context).filter
        (fun msg => msg.role != "system")
        = takeRight maxContextMessages conversation_context := by
      rw [List.filter_eq_self]
      intro msg hmsg
      simpa using hns msg (hsub hmsg)
    rw [hmain]
    simp only [List.length_cons, List.length_append, List.length_map,
      List.length_singleton, List.length_nil, hfil, length_takeRight]
    omega

/-- Concrete context for the C7 witness: 5 turns, none with the system
role. -/
def ctxC7 : List Message :=
  [⟨"user", "m1", none⟩, ⟨"assistant", "m2", none⟩, ⟨"user", "m3", none⟩,
   ⟨"assistant", "m4", none⟩, ⟨"user", "m5", none⟩]

/-- Closed instance of `prompt_assembly_spec`: on the 5-turn system-free
context with `maxContextMessages = 3`, the assembled list has length 5. -/
theorem prompt_assembly_spec_witness :
    (assemble_messages "SYS" ctxC7 3 "current").length = 5 :=
  (prompt_assembly_spec "SYS" "current" ctxC7 3).2.2.2.2 (by decide) rfl (by decide)

/-! ### Claim C8: error isolation in cleanup_all_memories -/

/-- A per-user cleanup behaviour under which exactly user `u1` fails. -/
def stepFailU1 : String → Except String Unit :=
  fun u => if u = "u1" then Except.error "boom" else Except.ok ()

/-- Counterexample to claim C8 as stated: with users `[u1, u2]` registered
and only `u1`'s cleanup failing, the pass aborts with the propagated error
and `u2`'s cleanup — although `u2`'s own cleanup would succeed — is never
attempted, so a single user's failure is not isolated. -/
theorem cleanup_all_memories_not_isolated :
    stepFailU1 "u2" = Except.ok ()
      ∧ (cleanup_all_memories stepFailU1 ["u1", "u2"]).2 = some "boom"
      ∧ "u2" ∉ (cleanup_all_memories stepFailU1 ["u1", "u2"]).1 :=
  ⟨rfl, rfl, by decide⟩

/-- Claim C8 (amended): the loop of `cleanup_all_memories` has no exception
handler, so the first per-user failure propagates and aborts the pass: the
users before the failing one (in registry order) are cleaned, the failing
user's error becomes the outcome of the pass, and the users after it are
never attempted. -/
theorem cleanup_all_memories_first_failure_aborts
    (step : String → Except String Unit) (pre post : List String) (u e : String)
    (hpre : ∀ v ∈ pre, step v = Except.ok ())
    (hu : step u = Except.error e) :
    cleanup_all_memories step (pre ++ u :: post) = (pre, some e) := by
  induction pre with
  | nil => simp [cleanup_all_memories, hu]
  | cons v vs ih =>
    have hv : step v = Except.ok () := hpre v (List.mem_cons_self _ _)
    have ih' := ih (fun w hw => hpre w (List.mem_cons_of_mem _ hw))
    simp [cleanup_all_memories, hv, ih']

/-- Closed instance of `cleanup_all_memories_first_failure_aborts`: with
registry order `[u0, u1, u2]` and `u1` failing, only `u0` is cleaned and the
error propagates. -/
theorem cleanup_all_memories_first_failure_aborts_witness :
    cleanup_all_memories stepFailU1 (["u0"] ++ "u1" :: ["u2"]) = (["u0"], some "boom") :=
  cleanup_all_memories_first_failure_aborts stepFailU1 ["u0"] ["u2"] "u1" "boom"
    (by
      intro v hv
      simp only [List.mem_singleton] at hv
      subst hv
      rfl)
    rfl

end ChatMem
